import Mathlib

/-!
Verification of the populate engine of datajoint-python
(src/datajoint/autopopulate.py, class AutoPopulate).

The file shallowly embeds the second (retrying) definition of
AutoPopulate.populate, the one in effect in Python since it shadows the
first.  External collaborators (relational algebra, the storage
transaction manager, the user callback) are modelled by the narrow
interfaces the code consumes:

  - the populate relation and the target relation are sets of keys,
    modelled as lists with decidable equality of keys;
  - the transaction context manager (self.conn.transaction(), not part of
    this repository) is modelled from the spec: scoped acquisition that
    commits on normal exit of the with-block and cancels when an exception
    escapes the block;
  - _make_tuples is an oracle giving, per key and per attempt number, the
    outcome of the user callback: normal return (which, per its contract
    in the abstract-method docstring, inserts the new tuples for that key
    into the target), a TransactionError carrying a culprit label, or any
    other exception;
  - observable side effects (transaction begin/commit/cancel, callback
    invocation, conflict resolution) are recorded in a trace so that
    ordering claims are statable.

Machine arithmetic does not occur; the only numbers are attempt counters.
-/

namespace AutoPop

/-- Observable events of one populate run, in order. -/
inductive Event (κ : Type) where
  | startTransaction : Event κ
  | commitTransaction : Event κ
  | cancelTransaction : Event κ
  | callMakeTuples : κ → Event κ
  | resolveConflict : String → Event κ
  deriving DecidableEq, Repr

/-- Outcome of one invocation of the user callback _make_tuples. -/
inductive MakeResult (ε : Type) where
  | ok : MakeResult ε
  | conflict : String → MakeResult ε
  | fail : ε → MakeResult ε
  deriving DecidableEq, Repr

/-- An error as seen by the caller of populate: a user-callback exception,
a TransactionError that escaped (the code never lets one escape), or the
giving-up DataJointError raised when attempts are exhausted. -/
inductive PopError (ε : Type) where
  | user : ε → PopError ε
  | conflictErr : String → PopError ε
  | giveUp : String → PopError ε
  deriving DecidableEq, Repr

/-- Result of one transaction-wrapped attempt on one key. -/
inductive AttemptRes (ε : Type) where
  | okDone : AttemptRes ε
  | skipDone : AttemptRes ε
  | conflicted : String → AttemptRes ε
  | errored : ε → AttemptRes ε
  deriving DecidableEq, Repr

/-- Outcome of the whole bounded-retry loop for one key. -/
inductive KeyOutcome (ε : Type) where
  | committed : KeyOutcome ε
  | alreadyDone : KeyOutcome ε
  | failedKey : PopError ε → KeyOutcome ε
  deriving DecidableEq, Repr

/-- The value a call of populate produces: the assertion failure on
reserve_jobs, one of the two DataJointError checks, an exception
propagated out of the key loop, or a normal return carrying error_list
(some list when suppress_errors, none otherwise). -/
inductive PopResult (κ ε : Type) where
  | assertionError : PopResult κ ε
  | djError : String → PopResult κ ε
  | raised : PopError ε → PopResult κ ε
  | done : Option (List (κ × PopError ε)) → PopResult κ ε
  deriving DecidableEq, Repr

/-- A finished run: its event trace, the final target relation contents,
and the produced result. -/
structure RunResult (κ ε : Type) where
  trace : List (Event κ)
  target : List κ
  res : PopResult κ ε
  deriving DecidableEq, Repr

/-- The fixed pieces a populate call reads from self: the class name used
in the giving-up message, the two isinstance facts, the populate_relation
key set and the _make_tuples oracle. -/
structure Env (κ ε : Type) where
  className : String
  isRelation : Bool
  validPopulateRelation : Bool
  populateRelation : List κ
  makeTuples : κ → Nat → MakeResult ε

/-- max_attempts = 10 in populate. -/
def maxAttempts : Nat := 10

/-- The message of the DataJointError raised when the retry loop is
exhausted: built from self.__class__ only. -/
def giveUpMessage (cls : String) : String :=
  cls ++ "._make_tuples failed after multiple attempts, giving up"

/-- Restriction by None restricts nothing. -/
def applyRestriction {κ : Type} : Option (κ → Bool) → κ → Bool
  | none, _ => true
  | some f, k => f k

/-- The work list (self.populate_relation - self.target) & restriction,
projected to primary keys: relations are sets, so the projection holds no
duplicates. -/
def workList {κ : Type} [DecidableEq κ] (popRel : List κ) (restr : Option (κ → Bool))
    (tgt : List κ) : List κ :=
  ((popRel.filter (fun k => decide (k ∉ tgt))).filter (applyRestriction restr)).dedup

/-- One attempt on one key: with self.conn.transaction(): if key not in
self.target: self._make_tuples(dict(key)).  The context manager commits on
normal exit and cancels when an exception escapes; a TransactionError is
then resolved by the except clause. -/
def oneAttempt {κ ε : Type} [DecidableEq κ] (make : κ → Nat → MakeResult ε) (k : κ)
    (tgt : List κ) (i : Nat) : List (Event κ) × List κ × AttemptRes ε :=
  if k ∈ tgt then
    ([Event.startTransaction, Event.commitTransaction], tgt, AttemptRes.skipDone)
  else
    match make k i with
    | MakeResult.ok =>
      ([Event.startTransaction, Event.callMakeTuples k, Event.commitTransaction],
        k :: tgt, AttemptRes.okDone)
    | MakeResult.conflict c =>
      ([Event.startTransaction, Event.callMakeTuples k, Event.cancelTransaction,
        Event.resolveConflict c], tgt, AttemptRes.conflicted c)
    | MakeResult.fail e =>
      ([Event.startTransaction, Event.callMakeTuples k, Event.cancelTransaction],
        tgt, AttemptRes.errored e)

/-- The bounded retry loop for one key: for attempts in range(max_attempts)
with a break on success, retry on TransactionError, and the for-else
raising the giving-up DataJointError when the range is exhausted.  The
second Nat argument is the index of the current attempt. -/
def attemptLoop {κ ε : Type} [DecidableEq κ] (make : κ → Nat → MakeResult ε) (cls : String)
    (k : κ) : List κ → Nat → Nat → List (Event κ) × List κ × KeyOutcome ε
  | tgt, 0, _ => ([], tgt, KeyOutcome.failedKey (PopError.giveUp (giveUpMessage cls)))
  | tgt, n + 1, i =>
    match oneAttempt make k tgt i with
    | (tr, tgt', AttemptRes.okDone) => (tr, tgt', KeyOutcome.committed)
    | (tr, tgt', AttemptRes.skipDone) => (tr, tgt', KeyOutcome.alreadyDone)
    | (tr, tgt', AttemptRes.errored e) => (tr, tgt', KeyOutcome.failedKey (PopError.user e))
    | (tr, tgt', AttemptRes.conflicted _) =>
      let r := attemptLoop make cls k tgt' n (i + 1)
      (tr ++ r.1, r.2.1, r.2.2)

/-- The outer key loop of populate: per key, run the retry loop; on a
terminal failure either record (key, error) in error_list and continue
(suppress_errors) or re-raise, aborting the rest. -/
def processKeys {κ ε : Type} [DecidableEq κ] (make : κ → Nat → MakeResult ε) (cls : String)
    (suppress : Bool) : List κ → List κ → List (κ × PopError ε) →
    List (Event κ) × List κ × PopResult κ ε
  | [], tgt, errs => ([], tgt, PopResult.done (if suppress then some errs else none))
  | k :: rest, tgt, errs =>
    let r := attemptLoop make cls k tgt maxAttempts 0
    match r.2.2 with
    | KeyOutcome.committed =>
      let r2 := processKeys make cls suppress rest r.2.1 errs
      (r.1 ++ r2.1, r2.2.1, r2.2.2)
    | KeyOutcome.alreadyDone =>
      let r2 := processKeys make cls suppress rest r.2.1 errs
      (r.1 ++ r2.1, r2.2.1, r2.2.2)
    | KeyOutcome.failedKey e =>
      if suppress then
        let r2 := processKeys make cls suppress rest r.2.1 (errs ++ [(k, e)])
        (r.1 ++ r2.1, r2.2.1, r2.2.2)
      else
        (r.1, r.2.1, PopResult.raised e)

/-- populate(restriction, suppress_errors, reserve_jobs) run against an
initial target relation: assert not reserve_jobs, the two isinstance
checks, the work list computation, then the key loop. -/
def populate {κ ε : Type} [DecidableEq κ] (env : Env κ ε) (restriction : Option (κ → Bool))
    (suppressErrors reserveJobs : Bool) (tgt0 : List κ) : RunResult κ ε :=
  if reserveJobs then
    ⟨[], tgt0, PopResult.assertionError⟩
  else if env.isRelation then
    if env.validPopulateRelation then
      let w := workList env.populateRelation restriction tgt0
      let r := processKeys env.makeTuples env.className suppressErrors w tgt0 []
      ⟨r.1, r.2.1, r.2.2⟩
    else
      ⟨[], tgt0, PopResult.djError "Invalid populate_relation value"⟩
  else
    ⟨[], tgt0,
      PopResult.djError "Autopopulate is a mixin for Relation and must therefore subclass Relation"⟩

/-!
Concurrency model for racing populate calls.  Each process runs the same
per-key executor, one transaction-wrapped attempt at a time; the storage
collaborator serializes transactions, so an interleaving is a schedule of
whole attempts.  A phase is the per-key loop state of one process:
remaining attempts and current attempt index, or finished.
-/

/-- Per-key loop state of one populate process working on a fixed key. -/
inductive ProcPhase where
  | running : Nat → Nat → ProcPhase
  | finishedOk : ProcPhase
  | finishedErr : ProcPhase
  deriving DecidableEq, Repr

/-- Shared state of two populate processes racing on one key. -/
structure CState (κ : Type) where
  target : List κ
  trace : List (Event κ)
  procA : ProcPhase
  procB : ProcPhase
  deriving Repr

/-- One serialized attempt of one process: exactly the body of the retry
loop of populate, on the shared target. -/
def stepPhase {κ ε : Type} [DecidableEq κ] (make : κ → Nat → MakeResult ε) (k : κ)
    (tgt : List κ) : ProcPhase → List (Event κ) × List κ × ProcPhase
  | ProcPhase.running 0 _ => ([], tgt, ProcPhase.finishedErr)
  | ProcPhase.running (n + 1) i =>
    match oneAttempt make k tgt i with
    | (tr, tgt', AttemptRes.okDone) => (tr, tgt', ProcPhase.finishedOk)
    | (tr, tgt', AttemptRes.skipDone) => (tr, tgt', ProcPhase.finishedOk)
    | (tr, tgt', AttemptRes.errored _) => (tr, tgt', ProcPhase.finishedErr)
    | (tr, tgt', AttemptRes.conflicted _) => (tr, tgt', ProcPhase.running n (i + 1))
  | ProcPhase.finishedOk => ([], tgt, ProcPhase.finishedOk)
  | ProcPhase.finishedErr => ([], tgt, ProcPhase.finishedErr)

/-- Let the scheduled process (true = A, false = B) run one attempt. -/
def stepState {κ ε : Type} [DecidableEq κ] (make : κ → Nat → MakeResult ε) (k : κ)
    (s : CState κ) (who : Bool) : CState κ :=
  if who then
    let r := stepPhase make k s.target s.procA
    ⟨r.2.1, s.trace ++ r.1, r.2.2, s.procB⟩
  else
    let r := stepPhase make k s.target s.procB
    ⟨r.2.1, s.trace ++ r.1, s.procA, r.2.2⟩

/-- Run a schedule of serialized attempts of the two processes. -/
def runSched {κ ε : Type} [DecidableEq κ] (make : κ → Nat → MakeResult ε) (k : κ) :
    List Bool → CState κ → CState κ
  | [], s => s
  | w :: rest, s => runSched make k rest (stepState make k s w)

/-- Initial shared state of the race: an empty target and both processes
about to run the full retry loop on the key. -/
def raceStart {κ : Type} : CState κ :=
  ⟨[], [], ProcPhase.running maxAttempts 0, ProcPhase.running maxAttempts 0⟩

/-! Basic facts about the embedded definitions. -/

theorem workList_mem {κ : Type} [DecidableEq κ] (popRel : List κ) (restr : Option (κ → Bool))
    (tgt : List κ) (k : κ) :
    k ∈ workList popRel restr tgt ↔
      k ∈ popRel ∧ applyRestriction restr k = true ∧ k ∉ tgt := by
  simp [workList, List.mem_dedup, List.mem_filter, and_assoc, and_comm, and_left_comm]

theorem workList_nodup {κ : Type} [DecidableEq κ] (popRel : List κ) (restr : Option (κ → Bool))
    (tgt : List κ) : (workList popRel restr tgt).Nodup :=
  List.nodup_dedup _

theorem attemptLoop_skip {κ ε : Type} [DecidableEq κ] (make : κ → Nat → MakeResult ε)
    (cls : String) (k : κ) (tgt : List κ) (n i : Nat) (h : k ∈ tgt) :
    attemptLoop make cls k tgt (n + 1) i =
      ([Event.startTransaction, Event.commitTransaction], tgt, KeyOutcome.alreadyDone) := by
  simp [attemptLoop, oneAttempt, h]

theorem attemptLoop_ok {κ ε : Type} [DecidableEq κ] {make : κ → Nat → MakeResult ε}
    (cls : String) {k : κ} {tgt : List κ} (n : Nat) {i : Nat} (hk : k ∉ tgt)
    (hm : make k i = MakeResult.ok) :
    attemptLoop make cls k tgt (n + 1) i =
      ([Event.startTransaction, Event.callMakeTuples k, Event.commitTransaction],
        k :: tgt, KeyOutcome.committed) := by
  simp [attemptLoop, oneAttempt, hk, hm]

theorem attemptLoop_fail {κ ε : Type} [DecidableEq κ] {make : κ → Nat → MakeResult ε}
    (cls : String) {k : κ} {tgt : List κ} (n : Nat) {i : Nat} {e : ε} (hk : k ∉ tgt)
    (hm : make k i = MakeResult.fail e) :
    attemptLoop make cls k tgt (n + 1) i =
      ([Event.startTransaction, Event.callMakeTuples k, Event.cancelTransaction],
        tgt, KeyOutcome.failedKey (PopError.user e)) := by
  simp [attemptLoop, oneAttempt, hk, hm]

theorem attemptLoop_conflict {κ ε : Type} [DecidableEq κ] {make : κ → Nat → MakeResult ε}
    (cls : String) {k : κ} {tgt : List κ} (n : Nat) {i : Nat} {c : String} (hk : k ∉ tgt)
    (hm : make k i = MakeResult.conflict c) :
    attemptLoop make cls k tgt (n + 1) i =
      ([Event.startTransaction, Event.callMakeTuples k, Event.cancelTransaction,
        Event.resolveConflict c] ++ (attemptLoop make cls k tgt n (i + 1)).1,
        (attemptLoop make cls k tgt n (i + 1)).2.1,
        (attemptLoop make cls k tgt n (i + 1)).2.2) := by
  simp [attemptLoop, oneAttempt, hk, hm]

/-- The retry loop ends in one of three ways: the key was computed and
committed (target grows by exactly that key), the key was found already
present (target unchanged), or a terminal failure (target unchanged, and
the failure is never a bare conflict). -/
theorem attemptLoop_cases {κ ε : Type} [DecidableEq κ] (make : κ → Nat → MakeResult ε)
    (cls : String) (k : κ) :
    ∀ (n i : Nat) (tgt : List κ),
      ((attemptLoop make cls k tgt n i).2 = (k :: tgt, KeyOutcome.committed) ∧ k ∉ tgt) ∨
      ((attemptLoop make cls k tgt n i).2 = (tgt, KeyOutcome.alreadyDone) ∧ k ∈ tgt) ∨
      (∃ e, (attemptLoop make cls k tgt n i).2 = (tgt, KeyOutcome.failedKey e) ∧
        ∀ c, e ≠ PopError.conflictErr c) := by
  intro n
  induction n with
  | zero =>
    intro i tgt
    refine Or.inr (Or.inr ⟨PopError.giveUp (giveUpMessage cls), ?_, ?_⟩)
    · simp [attemptLoop]
    · intro c h
      exact PopError.noConfusion h
  | succ n ih =>
    intro i tgt
    by_cases hk : k ∈ tgt
    · exact Or.inr (Or.inl ⟨by rw [attemptLoop_skip make cls k tgt n i hk], hk⟩)
    · cases hm : make k i with
      | ok => exact Or.inl ⟨by rw [attemptLoop_ok cls n hk hm], hk⟩
      | fail e =>
        refine Or.inr (Or.inr ⟨PopError.user e, by rw [attemptLoop_fail cls n hk hm], ?_⟩)
        intro c h
        exact PopError.noConfusion h
      | conflict c =>
        rw [attemptLoop_conflict cls n hk hm]
        exact ih (i + 1) tgt

theorem attemptLoop_target_subset {κ ε : Type} [DecidableEq κ] (make : κ → Nat → MakeResult ε)
    (cls : String) (k : κ) (n i : Nat) (tgt : List κ) :
    tgt ⊆ (attemptLoop make cls k tgt n i).2.1 := by
  rcases attemptLoop_cases make cls k n i tgt with ⟨h, -⟩ | ⟨h, -⟩ | ⟨e, h, -⟩ <;>
    rw [show (attemptLoop make cls k tgt n i).2.1 = ((attemptLoop make cls k tgt n i).2).1 from rfl, h]
  · exact List.subset_cons_self k tgt
  · exact List.Subset.refl tgt
  · exact List.Subset.refl tgt

theorem processKeys_target_mono {κ ε : Type} [DecidableEq κ] (make : κ → Nat → MakeResult ε)
    (cls : String) (suppress : Bool) :
    ∀ (keys tgt : List κ) (errs : List (κ × PopError ε)),
      tgt ⊆ (processKeys make cls suppress keys tgt errs).2.1 := by
  intro keys
  induction keys with
  | nil =>
    intro tgt errs
    simp [processKeys]
  | cons k rest ih =>
    intro tgt errs
    have hsub : tgt ⊆ (attemptLoop make cls k tgt maxAttempts 0).2.1 :=
      attemptLoop_target_subset make cls k maxAttempts 0 tgt
    rcases h : attemptLoop make cls k tgt maxAttempts 0 with ⟨tr, tgt2, out⟩
    rw [h] at hsub
    simp only [processKeys]
    rw [h]
    cases out with
    | committed => exact hsub.trans (ih tgt2 errs)
    | alreadyDone => exact hsub.trans (ih tgt2 errs)
    | failedKey e =>
      cases suppress with
      | true =>
        simp only [if_true]
        exact hsub.trans (ih tgt2 (errs ++ [(k, e)]))
      | false =>
        simp only [if_false]
        exact hsub

/-- Error accounting of the key loop in suppressing mode: the loop always
returns normally, the error list grows only by keys of the work list, and
every work-list key ends either in the target or exactly once in the new
part of the error list. -/
theorem processKeys_suppress {κ ε : Type} [DecidableEq κ] (make : κ → Nat → MakeResult ε)
    (cls : String) :
    ∀ (keys tgt : List κ) (errs : List (κ × PopError ε)), keys.Nodup →
      ∃ errsNew,
        (processKeys make cls true keys tgt errs).2.2 = PopResult.done (some (errs ++ errsNew)) ∧
        (∀ p ∈ errsNew, p.1 ∈ keys) ∧
        ∀ k ∈ keys, k ∈ (processKeys make cls true keys tgt errs).2.1 ∨
          List.countP (fun p => decide (p.1 = k)) errsNew = 1 := by
  intro keys
  induction keys with
  | nil =>
    intro tgt errs _
    exact ⟨[], by simp [processKeys], by simp, by simp⟩
  | cons k rest ih =>
    intro tgt errs hnd
    rw [List.nodup_cons] at hnd
    obtain ⟨hknr, hnd'⟩ := hnd
    have hcase := attemptLoop_cases make cls k maxAttempts 0 tgt
    rcases h : attemptLoop make cls k tgt maxAttempts 0 with ⟨tr, tgt2, out⟩
    rw [h] at hcase
    simp only [Prod.mk.injEq] at hcase
    simp only [processKeys]
    rw [h]
    rcases hcase with ⟨⟨ht, ho⟩, -⟩ | ⟨⟨ht, ho⟩, hmem⟩ | ⟨e, ⟨ht, ho⟩, -⟩
    · subst ht ho
      obtain ⟨errsNew, h1, h2, h3⟩ := ih (k :: tgt) errs hnd'
      refine ⟨errsNew, h1, fun p hp => List.mem_cons_of_mem k (h2 p hp), ?_⟩
      intro k' hk'
      rcases List.mem_cons.mp hk' with rfl | hk'r
      · exact Or.inl (processKeys_target_mono make cls true rest (k' :: tgt) errs
          (List.mem_cons_self k' tgt))
      · exact h3 k' hk'r
    · subst ht ho
      obtain ⟨errsNew, h1, h2, h3⟩ := ih tgt2 errs hnd'
      refine ⟨errsNew, h1, fun p hp => List.mem_cons_of_mem k (h2 p hp), ?_⟩
      intro k' hk'
      rcases List.mem_cons.mp hk' with rfl | hk'r
      · exact Or.inl (processKeys_target_mono make cls true rest tgt2 errs hmem)
      · exact h3 k' hk'r
    · subst ht ho
      simp only [if_true]
      obtain ⟨errsNew, h1, h2, h3⟩ := ih tgt2 (errs ++ [(k, e)]) hnd'
      refine ⟨(k, e) :: errsNew, ?_, ?_, ?_⟩
      · rw [h1]
        simp
      · intro p hp
        rcases List.mem_cons.mp hp with rfl | hpr
        · exact List.mem_cons_self k rest
        · exact List.mem_cons_of_mem k (h2 p hpr)
      · intro k' hk'
        rcases List.mem_cons.mp hk' with rfl | hk'r
        · refine Or.inr ?_
          rw [List.countP_cons]
          have hz : List.countP (fun p => decide (p.1 = k')) errsNew = 0 := by
            refine List.countP_eq_zero.mpr ?_
            intro p hp
            simp only [decide_eq_true_eq]
            intro hpk
            exact hknr (hpk ▸ h2 p hp)
          simp [hz]
        · rcases h3 k' hk'r with hl | hr
          · exact Or.inl hl
          · refine Or.inr ?_
            rw [List.countP_cons]
            have hne : k ≠ k' := fun hkk => hknr (hkk ▸ hk'r)
            simp [hr, hne]

/-- In non-suppressing mode the key loop either finishes with error_list
still None or re-raises some terminal per-key error. -/
theorem processKeys_noSuppress {κ ε : Type} [DecidableEq κ] (make : κ → Nat → MakeResult ε)
    (cls : String) :
    ∀ (keys tgt : List κ) (errs : List (κ × PopError ε)),
      (processKeys make cls false keys tgt errs).2.2 = PopResult.done none ∨
      ∃ e, (processKeys make cls false keys tgt errs).2.2 = PopResult.raised e := by
  intro keys
  induction keys with
  | nil =>
    intro tgt errs
    exact Or.inl (by simp [processKeys])
  | cons k rest ih =>
    intro tgt errs
    rcases h : attemptLoop make cls k tgt maxAttempts 0 with ⟨tr, tgt2, out⟩
    simp only [processKeys]
    rw [h]
    cases out with
    | committed => exact ih tgt2 errs
    | alreadyDone => exact ih tgt2 errs
    | failedKey e => exact Or.inr ⟨e, by simp⟩

/-- A retryable conflict never reaches the caller: neither as a raised
exception nor as a recorded error, in either mode. -/
theorem processKeys_no_conflictErr {κ ε : Type} [DecidableEq κ] (make : κ → Nat → MakeResult ε)
    (cls : String) (suppress : Bool) :
    ∀ (keys tgt : List κ) (errs : List (κ × PopError ε)),
      (∀ p ∈ errs, ∀ c, p.2 ≠ PopError.conflictErr c) →
      (∀ c, (processKeys make cls suppress keys tgt errs).2.2 ≠
        PopResult.raised (PopError.conflictErr c)) ∧
      (∀ errsF, (processKeys make cls suppress keys tgt errs).2.2 =
          PopResult.done (some errsF) →
        ∀ p ∈ errsF, ∀ c, p.2 ≠ PopError.conflictErr c) := by
  intro keys
  induction keys with
  | nil =>
    intro tgt errs herrs
    constructor
    · intro c hc
      cases suppress <;> exact PopResult.noConfusion hc
    · intro errsF hF
      cases suppress with
      | true =>
        have hF' : PopResult.done (some errs) = PopResult.done (some errsF) := hF
        simp only [PopResult.done.injEq, Option.some.injEq] at hF'
        exact hF' ▸ herrs
      | false =>
        have hF' : (PopResult.done none : PopResult κ ε) = PopResult.done (some errsF) := hF
        simp at hF' 
  | cons k rest ih =>
    intro tgt errs herrs
    have hcase := attemptLoop_cases make cls k maxAttempts 0 tgt
    rcases h : attemptLoop make cls k tgt maxAttempts 0 with ⟨tr, tgt2, out⟩
    rw [h] at hcase
    simp only [Prod.mk.injEq] at hcase
    simp only [processKeys]
    rw [h]
    rcases hcase with ⟨⟨ht, ho⟩, -⟩ | ⟨⟨ht, ho⟩, -⟩ | ⟨e, ⟨ht, ho⟩, hnc⟩
    · subst ho
      exact ih tgt2 errs herrs
    · subst ho
      exact ih tgt2 errs herrs
    · subst ho
      cases suppress with
      | true =>
        simp only [if_true]
        refine ih tgt2 (errs ++ [(k, e)]) ?_
        intro p hp
        rcases List.mem_append.mp hp with hpl | hpr
        · exact herrs p hpl
        · rw [List.mem_singleton.mp hpr]
          exact hnc
      | false =>
        constructor
        · intro c hc
          have hc' : PopResult.raised e = PopResult.raised (PopError.conflictErr c) := hc
          exact hnc c (PopResult.raised.inj hc')
        · intro errsF hF
          have hF' : PopResult.raised e = PopResult.done (some errsF) := hF
          exact PopResult.noConfusion hF' 

/-- In suppressing mode the error list the key loop returns extends the
accumulator it was given. -/
theorem processKeys_suppress_prefix {κ ε : Type} [DecidableEq κ] (make : κ → Nat → MakeResult ε)
    (cls : String) :
    ∀ (keys tgt : List κ) (errs : List (κ × PopError ε)),
      ∃ errsNew, (processKeys make cls true keys tgt errs).2.2 =
        PopResult.done (some (errs ++ errsNew)) := by
  intro keys
  induction keys with
  | nil =>
    intro tgt errs
    exact ⟨[], by simp [processKeys]⟩
  | cons k rest ih =>
    intro tgt errs
    rcases h : attemptLoop make cls k tgt maxAttempts 0 with ⟨tr, tgt2, out⟩
    simp only [processKeys]
    rw [h]
    cases out with
    | committed => exact ih tgt2 errs
    | alreadyDone => exact ih tgt2 errs
    | failedKey e =>
      simp only [if_true]
      obtain ⟨errsNew, h1⟩ := ih tgt2 (errs ++ [(k, e)])
      exact ⟨(k, e) :: errsNew, by rw [h1]; simp⟩

/-- If the key loop returns normally with the error list it started from
(suppressing) or with None (non-suppressing), every key it was given ended
up in the target relation. -/
theorem processKeys_clean_mem {κ ε : Type} [DecidableEq κ] (make : κ → Nat → MakeResult ε)
    (cls : String) (suppress : Bool) :
    ∀ (keys tgt : List κ) (errs : List (κ × PopError ε)),
      (processKeys make cls suppress keys tgt errs).2.2 = PopResult.done (some errs) ∨
      (processKeys make cls suppress keys tgt errs).2.2 = PopResult.done none →
      ∀ k ∈ keys, k ∈ (processKeys make cls suppress keys tgt errs).2.1 := by
  intro keys
  induction keys with
  | nil =>
    intro tgt errs _ k hk
    exact absurd hk (List.not_mem_nil k)
  | cons k rest ih =>
    intro tgt errs hclean k' hk'
    have hcase := attemptLoop_cases make cls k maxAttempts 0 tgt
    rcases h : attemptLoop make cls k tgt maxAttempts 0 with ⟨tr, tgt2, out⟩
    rw [h] at hcase
    simp only [Prod.mk.injEq] at hcase
    simp only [processKeys] at hclean ⊢
    rw [h] at hclean ⊢
    rcases hcase with ⟨⟨ht, ho⟩, -⟩ | ⟨⟨ht, ho⟩, hmem⟩ | ⟨e, ⟨ht, ho⟩, -⟩
    · subst ho
      rcases List.mem_cons.mp hk' with rfl | hk'r
      · have hk2 : k' ∈ tgt2 := ht ▸ List.mem_cons_self k' tgt
        exact processKeys_target_mono make cls suppress rest tgt2 errs hk2
      · exact ih tgt2 errs hclean k' hk'r
    · subst ho
      rcases List.mem_cons.mp hk' with rfl | hk'r
      · have hk2 : k' ∈ tgt2 := ht ▸ hmem
        exact processKeys_target_mono make cls suppress rest tgt2 errs hk2
      · exact ih tgt2 errs hclean k' hk'r
    · subst ho
      cases suppress with
      | true =>
        simp only [if_true] at hclean
        obtain ⟨errsNew, h1⟩ := processKeys_suppress_prefix make cls rest tgt2 (errs ++ [(k, e)])
        rw [h1] at hclean
        rcases hclean with hc | hc
        · exfalso
          simp only [PopResult.done.injEq, Option.some.injEq] at hc
          have hlen := congrArg List.length hc
          simp only [List.length_append, List.length_cons, List.length_nil] at hlen
          omega
        · exact absurd hc (by simp)
      | false =>
        simp only [if_false] at hclean
        rcases hclean with hc | hc <;> exact absurd hc (by simp)

/-- With reserve_jobs false and both isinstance checks passing, populate
is the key loop run on the work list. -/
theorem populate_run {κ ε : Type} [DecidableEq κ] (env : Env κ ε) (restr : Option (κ → Bool))
    (sup : Bool) (tgt0 : List κ) (h1 : env.isRelation = true)
    (h2 : env.validPopulateRelation = true) :
    populate env restr sup false tgt0 =
      ⟨(processKeys env.makeTuples env.className sup
          (workList env.populateRelation restr tgt0) tgt0 []).1,
        (processKeys env.makeTuples env.className sup
          (workList env.populateRelation restr tgt0) tgt0 []).2.1,
        (processKeys env.makeTuples env.className sup
          (workList env.populateRelation restr tgt0) tgt0 []).2.2⟩ := by
  simp [populate, h1, h2]

/-- A key that raises a retryable conflict on every attempt: each of the n
allowed attempts opens one transaction, cancels it and resolves, and the
loop then gives up with the target unchanged. -/
theorem attemptLoop_allConflict {κ ε : Type} [DecidableEq κ] {make : κ → Nat → MakeResult ε}
    (cls : String) {k : κ} {tgt : List κ} {cul : Nat → String} (hk : k ∉ tgt)
    (hc : ∀ i, make k i = MakeResult.conflict (cul i)) :
    ∀ (n i : Nat),
      (attemptLoop make cls k tgt n i).2 =
        (tgt, KeyOutcome.failedKey (PopError.giveUp (giveUpMessage cls))) ∧
      (attemptLoop make cls k tgt n i).1.count Event.startTransaction = n ∧
      (attemptLoop make cls k tgt n i).1.count (Event.callMakeTuples k) = n := by
  intro n
  induction n with
  | zero =>
    intro i
    simp [attemptLoop]
  | succ n ih =>
    intro i
    rw [attemptLoop_conflict cls n hk (hc i)]
    obtain ⟨ih1, ih2, ih3⟩ := ih (i + 1)
    refine ⟨ih1, ?_, ?_⟩
    · simp [List.count_append, ih2, List.count_cons, Nat.add_comm]
    · simp [List.count_append, ih3, List.count_cons, Nat.add_comm]

/-- An attempt by either racing process while the key is already in the
shared target neither changes the target nor calls the computation. -/
theorem stepPhase_stable {κ ε : Type} [DecidableEq κ] (make : κ → Nat → MakeResult ε) (k : κ)
    (tgt : List κ) (hks : k ∈ tgt) (p : ProcPhase) :
    (stepPhase make k tgt p).2.1 = tgt ∧
    (stepPhase make k tgt p).1.count (Event.callMakeTuples k) = 0 := by
  cases p with
  | running n i =>
    cases n with
    | zero => simp [stepPhase]
    | succ n => simp [stepPhase, oneAttempt, hks]
  | finishedOk => simp [stepPhase]
  | finishedErr => simp [stepPhase]

/-- Once the key is in the shared target, no schedule of further attempts
by either racing process changes the target or calls the computation
again: every later attempt takes the re-check-and-skip path. -/
theorem runSched_stable {κ ε : Type} [DecidableEq κ] (make : κ → Nat → MakeResult ε) (k : κ) :
    ∀ (sched : List Bool) (s : CState κ), k ∈ s.target →
      (runSched make k sched s).target = s.target ∧
      (runSched make k sched s).trace.count (Event.callMakeTuples k) =
        s.trace.count (Event.callMakeTuples k) := by
  intro sched
  induction sched with
  | nil =>
    intro s _
    exact ⟨rfl, rfl⟩
  | cons w rest ih =>
    intro s hks
    have hstep : (stepState make k s w).target = s.target ∧
        (stepState make k s w).trace.count (Event.callMakeTuples k) =
          s.trace.count (Event.callMakeTuples k) := by
      cases w with
      | true =>
        have hph := stepPhase_stable make k s.target hks s.procA
        simp [stepState, hph.1, hph.2, List.count_append]
      | false =>
        have hph := stepPhase_stable make k s.target hks s.procB
        simp [stepState, hph.1, hph.2, List.count_append]
    have hmem2 : k ∈ (stepState make k s w).target := hstep.1 ▸ hks
    obtain ⟨ihA, ihB⟩ := ih (stepState make k s w) hmem2
    rw [runSched]
    exact ⟨ihA.trans hstep.1, ihB.trans hstep.2⟩

/-- Every attempt with fuel left opens a transaction first. -/
theorem attemptLoop_trace_head {κ ε : Type} [DecidableEq κ] (make : κ → Nat → MakeResult ε)
    (cls : String) (k : κ) (tgt : List κ) (n i : Nat) :
    ∃ tl, (attemptLoop make cls k tgt (n + 1) i).1 = Event.startTransaction :: tl := by
  by_cases hk : k ∈ tgt
  · exact ⟨_, by rw [attemptLoop_skip make cls k tgt n i hk]⟩
  · cases hm : make k i with
    | ok => exact ⟨_, by rw [attemptLoop_ok cls n hk hm]⟩
    | conflict c =>
      refine ⟨[Event.callMakeTuples k, Event.cancelTransaction, Event.resolveConflict c] ++
        (attemptLoop make cls k tgt n (i + 1)).1, ?_⟩
      rw [attemptLoop_conflict cls n hk hm]
      simp
    | fail e => exact ⟨_, by rw [attemptLoop_fail cls n hk hm]⟩

/-- The work list of a single-key populate relation over a target not yet
holding the key. -/
theorem workList_singleton {κ : Type} [DecidableEq κ] (k : κ) (tgt : List κ) (hk : k ∉ tgt) :
    workList [k] none tgt = [k] := by
  simp [workList, applyRestriction, hk]

/-! The claims. -/

/-- Claim C10: for every call with reserve_jobs set to true, populate
fails with an assertion error before computing the work list or opening
any transaction (empty trace, untouched target); reserve_jobs being false
is an unstated precondition of the entry point. -/
theorem claim_C10 {κ ε : Type} [DecidableEq κ] (env : Env κ ε) (restr : Option (κ → Bool))
    (sup : Bool) (tgt0 : List κ) :
    populate env restr sup true tgt0 = ⟨[], tgt0, PopResult.assertionError⟩ := by
  simp [populate]

/-- Claim C8: whenever populate_relation is not a RelationalOperand, the
call raises the DataJointError for an invalid populate_relation value
before any transaction is opened and before any key is processed: the
trace is empty and the target is untouched. -/
theorem claim_C8 {κ ε : Type} [DecidableEq κ] (env : Env κ ε) (restr : Option (κ → Bool))
    (sup : Bool) (tgt0 : List κ) (h1 : env.isRelation = true)
    (h2 : env.validPopulateRelation = false) :
    populate env restr sup false tgt0 =
      ⟨[], tgt0, PopResult.djError "Invalid populate_relation value"⟩ := by
  simp [populate, h1, h2]

/-- Claim C8 witness at a concrete environment. -/
theorem claim_C8_witness :
    (Env.mk "Seg" true false [0] (fun _ _ => MakeResult.ok) : Env Nat Nat).isRelation = true ∧
    (Env.mk "Seg" true false [0] (fun _ _ => MakeResult.ok) : Env Nat Nat).validPopulateRelation
      = false ∧
    populate (Env.mk "Seg" true false [0] (fun _ _ => MakeResult.ok) : Env Nat Nat)
        none true false [] =
      ⟨[], [], PopResult.djError "Invalid populate_relation value"⟩ :=
  ⟨rfl, rfl, claim_C8 _ none true [] rfl rfl⟩

/-- Claim C4: an attempt on a key already present in the target opens the
transaction, re-checks membership inside it, and releases the transaction
without invoking the callback; the key loop treats this exactly like a
success, recording no error and continuing with the remaining keys. -/
theorem claim_C4 {κ ε : Type} [DecidableEq κ] (make : κ → Nat → MakeResult ε) (cls : String)
    (k : κ) (tgt : List κ) (n i : Nat) (sup : Bool) (rest : List κ)
    (errs : List (κ × PopError ε)) (h : k ∈ tgt) :
    attemptLoop make cls k tgt (n + 1) i =
      ([Event.startTransaction, Event.commitTransaction], tgt, KeyOutcome.alreadyDone) ∧
    processKeys make cls sup (k :: rest) tgt errs =
      ([Event.startTransaction, Event.commitTransaction] ++
          (processKeys make cls sup rest tgt errs).1,
        (processKeys make cls sup rest tgt errs).2.1,
        (processKeys make cls sup rest tgt errs).2.2) := by
  constructor
  · exact attemptLoop_skip make cls k tgt n i h
  · have hskip := attemptLoop_skip make cls k tgt 9 0 h
    simp only [processKeys]
    rw [show maxAttempts = 9 + 1 from rfl, hskip]

/-- Claim C4 witness at a concrete input. -/
theorem claim_C4_witness :
    (0 : Nat) ∈ [0, 5] ∧
    (attemptLoop (fun _ _ => (MakeResult.ok : MakeResult Nat)) "Seg" 0 [0, 5] 10 0 =
      ([Event.startTransaction, Event.commitTransaction], [0, 5], KeyOutcome.alreadyDone) ∧
    processKeys (fun _ _ => (MakeResult.ok : MakeResult Nat)) "Seg" true [0] [0, 5] [] =
      ([Event.startTransaction, Event.commitTransaction] ++
          (processKeys (fun _ _ => (MakeResult.ok : MakeResult Nat)) "Seg" true [] [0, 5] []).1,
        (processKeys (fun _ _ => (MakeResult.ok : MakeResult Nat)) "Seg" true [] [0, 5] []).2.1,
        (processKeys (fun _ _ => (MakeResult.ok : MakeResult Nat)) "Seg" true [] [0, 5] []).2.2)) :=
  ⟨by decide, claim_C4 (fun _ _ => MakeResult.ok) "Seg" 0 [0, 5] 9 0 true [] [] (by decide)⟩

/-- Claim C5: a retryable conflict during an attempt cancels the
transaction, applies the resolution action of the conflict, and retries
from the beginning by opening a fresh transaction; and no run of populate
ever surfaces a conflict to the caller, neither raised nor recorded. -/
theorem claim_C5 {κ ε : Type} [DecidableEq κ] (make : κ → Nat → MakeResult ε) (cls : String)
    (k : κ) (tgt : List κ) (n i : Nat) (c : String) (env : Env κ ε)
    (restr : Option (κ → Bool)) (sup : Bool) (tgt0 : List κ)
    (hk : k ∉ tgt) (hm : make k i = MakeResult.conflict c)
    (h1 : env.isRelation = true) (h2 : env.validPopulateRelation = true) :
    attemptLoop make cls k tgt (n + 2) i =
      ([Event.startTransaction, Event.callMakeTuples k, Event.cancelTransaction,
        Event.resolveConflict c] ++ (attemptLoop make cls k tgt (n + 1) (i + 1)).1,
        (attemptLoop make cls k tgt (n + 1) (i + 1)).2.1,
        (attemptLoop make cls k tgt (n + 1) (i + 1)).2.2) ∧
    (∃ tl, (attemptLoop make cls k tgt (n + 1) (i + 1)).1 = Event.startTransaction :: tl) ∧
    (∀ c', (populate env restr sup false tgt0).res ≠
      PopResult.raised (PopError.conflictErr c')) ∧
    (∀ errsF, (populate env restr sup false tgt0).res = PopResult.done (some errsF) →
      ∀ p ∈ errsF, ∀ c', p.2 ≠ PopError.conflictErr c') := by
  have hnc := processKeys_no_conflictErr env.makeTuples env.className sup
    (workList env.populateRelation restr tgt0) tgt0 [] (by simp)
  refine ⟨attemptLoop_conflict cls (n + 1) hk hm,
    attemptLoop_trace_head make cls k tgt n (i + 1), ?_, ?_⟩
  · intro c'
    rw [populate_run env restr sup tgt0 h1 h2]
    exact hnc.1 c'
  · intro errsF hF
    rw [populate_run env restr sup tgt0 h1 h2] at hF
    exact hnc.2 errsF hF

/-- Claim C5 witness at a concrete input. -/
theorem claim_C5_witness :
    (0 : Nat) ∉ ([] : List Nat) ∧
    (fun (_ : Nat) (_ : Nat) => (MakeResult.conflict "tbl" : MakeResult Nat)) 0 0 =
      MakeResult.conflict "tbl" ∧
    (Env.mk "Seg" true true [0]
      (fun _ _ => (MakeResult.conflict "tbl" : MakeResult Nat))).isRelation = true ∧
    (Env.mk "Seg" true true [0]
      (fun _ _ => (MakeResult.conflict "tbl" : MakeResult Nat))).validPopulateRelation = true ∧
    (attemptLoop (fun _ _ => (MakeResult.conflict "tbl" : MakeResult Nat)) "Seg" 0 [] 2 0 =
      ([Event.startTransaction, Event.callMakeTuples 0, Event.cancelTransaction,
        Event.resolveConflict "tbl"] ++
          (attemptLoop (fun _ _ => (MakeResult.conflict "tbl" : MakeResult Nat))
            "Seg" 0 [] 1 1).1,
        (attemptLoop (fun _ _ => (MakeResult.conflict "tbl" : MakeResult Nat)) "Seg" 0 [] 1 1).2.1,
        (attemptLoop (fun _ _ => (MakeResult.conflict "tbl" : MakeResult Nat))
          "Seg" 0 [] 1 1).2.2) ∧
      (∃ tl, (attemptLoop (fun _ _ => (MakeResult.conflict "tbl" : MakeResult Nat))
        "Seg" 0 [] 1 1).1 = Event.startTransaction :: tl) ∧
      (∀ c', (populate (Env.mk "Seg" true true [0]
          (fun _ _ => (MakeResult.conflict "tbl" : MakeResult Nat))) none true false []).res ≠
        PopResult.raised (PopError.conflictErr c')) ∧
      (∀ errsF, (populate (Env.mk "Seg" true true [0]
            (fun _ _ => (MakeResult.conflict "tbl" : MakeResult Nat))) none true false []).res =
          PopResult.done (some errsF) →
        ∀ p ∈ errsF, ∀ c', p.2 ≠ PopError.conflictErr c')) :=
  ⟨by decide, rfl, rfl, rfl,
    claim_C5 (fun _ _ => MakeResult.conflict "tbl") "Seg" 0 [] 0 0 "tbl"
      (Env.mk "Seg" true true [0] (fun _ _ => MakeResult.conflict "tbl")) none true []
      (by decide) rfl rfl rfl⟩

/-- Claim C2 (amended): a key whose computation raises a retryable
conflict on every attempt is attempted exactly max_attempts = 10 times —
ten transactions opened, ten callback invocations, never more — and then
fails terminally with the giving-up DataJointError, whose message names
the class only (not the key and not the attempt count); in
non-suppressing mode populate raises exactly that error. -/
theorem claim_C2 {κ ε : Type} [DecidableEq κ] (make : κ → Nat → MakeResult ε) (cls : String)
    (k : κ) (tgt0 : List κ) (cul : Nat → String)
    (hk : k ∉ tgt0) (hc : ∀ i, make k i = MakeResult.conflict (cul i)) :
    (attemptLoop make cls k tgt0 maxAttempts 0).2 =
      (tgt0, KeyOutcome.failedKey (PopError.giveUp (giveUpMessage cls))) ∧
    (attemptLoop make cls k tgt0 maxAttempts 0).1.count Event.startTransaction = 10 ∧
    (attemptLoop make cls k tgt0 maxAttempts 0).1.count (Event.callMakeTuples k) = 10 ∧
    (populate (Env.mk cls true true [k] make) none false false tgt0).res =
      PopResult.raised (PopError.giveUp (giveUpMessage cls)) ∧
    giveUpMessage cls = cls ++ "._make_tuples failed after multiple attempts, giving up" := by
  obtain ⟨hA, hB, hC⟩ := attemptLoop_allConflict cls hk hc maxAttempts 0
  refine ⟨hA, hB, hC, ?_, rfl⟩
  rw [populate_run _ none false tgt0 rfl rfl]
  show (processKeys make cls false (workList [k] none tgt0) tgt0 []).2.2 = _
  rw [workList_singleton k tgt0 hk]
  rcases h : attemptLoop make cls k tgt0 maxAttempts 0 with ⟨tr, tgt2, out⟩
  rw [h] at hA
  simp only [Prod.mk.injEq] at hA
  simp only [processKeys]
  rw [h, hA.2]
  rfl

/-- Claim C2 witness at a concrete input. -/
theorem claim_C2_witness :
    (5 : Nat) ∉ ([] : List Nat) ∧
    (∀ i, (fun (_ : Nat) (_ : Nat) => (MakeResult.conflict "tbl" : MakeResult Nat)) 5 i =
      MakeResult.conflict ((fun _ => "tbl") i)) ∧
    ((attemptLoop (fun _ _ => (MakeResult.conflict "tbl" : MakeResult Nat))
        "Seg" 5 [] maxAttempts 0).2 =
      ([], KeyOutcome.failedKey (PopError.giveUp (giveUpMessage "Seg"))) ∧
    (attemptLoop (fun _ _ => (MakeResult.conflict "tbl" : MakeResult Nat))
        "Seg" 5 [] maxAttempts 0).1.count Event.startTransaction = 10 ∧
    (attemptLoop (fun _ _ => (MakeResult.conflict "tbl" : MakeResult Nat))
        "Seg" 5 [] maxAttempts 0).1.count (Event.callMakeTuples 5) = 10 ∧
    (populate (Env.mk "Seg" true true [5]
        (fun _ _ => (MakeResult.conflict "tbl" : MakeResult Nat))) none false false []).res =
      PopResult.raised (PopError.giveUp (giveUpMessage "Seg")) ∧
    giveUpMessage "Seg" = "Seg" ++ "._make_tuples failed after multiple attempts, giving up") :=
  ⟨by decide, fun _ => rfl,
    claim_C2 (fun _ _ => MakeResult.conflict "tbl") "Seg" 5 [] (fun _ => "tbl")
      (by decide) (fun _ => rfl)⟩

/-- Claim C2 counterexample to the claim as stated: the terminal error
does not name the key (nor the attempt count) — two runs on different
keys raise the very same error value, whose message is a fixed string
built from the class name alone. -/
theorem claim_C2_counterexample :
    (populate (Env.mk "Seg" true true [0]
        (fun _ _ => (MakeResult.conflict "tbl" : MakeResult Nat))) none false false []).res =
      PopResult.raised (PopError.giveUp
        "Seg._make_tuples failed after multiple attempts, giving up") ∧
    (populate (Env.mk "Seg" true true [1]
        (fun _ _ => (MakeResult.conflict "tbl" : MakeResult Nat))) none false false []).res =
      PopResult.raised (PopError.giveUp
        "Seg._make_tuples failed after multiple attempts, giving up") ∧
    (0 : Nat) ≠ 1 := by
  refine ⟨?_, ?_, by decide⟩ <;> rfl

/-- Claim C3: with work list [k1, k2, k3], a non-conflict error from the
callback on k2, and suppress_errors false, populate commits k1 (it stays
in the target, not rolled back), propagates the k2 error unchanged, and
never attempts k3. -/
theorem claim_C3 {κ ε : Type} [DecidableEq κ] (env : Env κ ε) (restr : Option (κ → Bool))
    (tgt0 : List κ) (k1 k2 k3 : κ) (e : ε)
    (h1 : env.isRelation = true) (h2 : env.validPopulateRelation = true)
    (hw : workList env.populateRelation restr tgt0 = [k1, k2, k3])
    (hm1 : env.makeTuples k1 0 = MakeResult.ok)
    (hm2 : env.makeTuples k2 0 = MakeResult.fail e) :
    (populate env restr false false tgt0).res = PopResult.raised (PopError.user e) ∧
    k1 ∈ (populate env restr false false tgt0).target ∧
    (populate env restr false false tgt0).trace =
      [Event.startTransaction, Event.callMakeTuples k1, Event.commitTransaction,
        Event.startTransaction, Event.callMakeTuples k2, Event.cancelTransaction] ∧
    Event.callMakeTuples k3 ∉ (populate env restr false false tgt0).trace := by
  have hnd := workList_nodup env.populateRelation restr tgt0
  rw [hw] at hnd
  have hk12 : k1 ≠ k2 := by
    intro h'
    rw [h'] at hnd
    simp at hnd
  have hk31 : k3 ≠ k1 := by
    intro h'
    rw [h'] at hnd
    simp at hnd
  have hk32 : k3 ≠ k2 := by
    intro h'
    rw [h'] at hnd
    simp at hnd
  have hmem1 : k1 ∈ workList env.populateRelation restr tgt0 := by rw [hw]; simp
  have hmem2 : k2 ∈ workList env.populateRelation restr tgt0 := by rw [hw]; simp
  have hn1 : k1 ∉ tgt0 := ((workList_mem _ _ _ _).mp hmem1).2.2
  have hn2 : k2 ∉ tgt0 := ((workList_mem _ _ _ _).mp hmem2).2.2
  have hn2' : k2 ∉ k1 :: tgt0 := by
    intro hmem
    rcases List.mem_cons.mp hmem with h' | h'
    · exact hk12 h'.symm
    · exact hn2 h'
  have e1 : attemptLoop env.makeTuples env.className k1 tgt0 maxAttempts 0 =
      ([Event.startTransaction, Event.callMakeTuples k1, Event.commitTransaction],
        k1 :: tgt0, KeyOutcome.committed) := by
    rw [show maxAttempts = 9 + 1 from rfl]
    exact attemptLoop_ok env.className 9 hn1 hm1
  have e2 : attemptLoop env.makeTuples env.className k2 (k1 :: tgt0) maxAttempts 0 =
      ([Event.startTransaction, Event.callMakeTuples k2, Event.cancelTransaction],
        k1 :: tgt0, KeyOutcome.failedKey (PopError.user e)) := by
    rw [show maxAttempts = 9 + 1 from rfl]
    exact attemptLoop_fail env.className 9 hn2' hm2
  have e3 : processKeys env.makeTuples env.className false [k1, k2, k3] tgt0 [] =
      ([Event.startTransaction, Event.callMakeTuples k1, Event.commitTransaction,
        Event.startTransaction, Event.callMakeTuples k2, Event.cancelTransaction],
        k1 :: tgt0, PopResult.raised (PopError.user e)) := by
    simp [processKeys, e1, e2]
  simp [populate_run, h1, h2, hw, e3, hk31, hk32]

/-- Claim C3 witness at a concrete input. -/
theorem claim_C3_witness :
    (Env.mk "Seg" true true [0, 1, 2]
      (fun k _ => if k = 1 then MakeResult.fail 7 else (MakeResult.ok : MakeResult Nat))
      ).isRelation = true ∧
    (Env.mk "Seg" true true [0, 1, 2]
      (fun k _ => if k = 1 then MakeResult.fail 7 else (MakeResult.ok : MakeResult Nat))
      ).validPopulateRelation = true ∧
    workList [0, 1, 2] none ([] : List Nat) = [0, 1, 2] ∧
    ((populate (Env.mk "Seg" true true [0, 1, 2]
        (fun k _ => if k = 1 then MakeResult.fail 7 else (MakeResult.ok : MakeResult Nat)))
        none false false []).res = PopResult.raised (PopError.user 7) ∧
      (0 : Nat) ∈ (populate (Env.mk "Seg" true true [0, 1, 2]
        (fun k _ => if k = 1 then MakeResult.fail 7 else (MakeResult.ok : MakeResult Nat)))
        none false false []).target ∧
      (populate (Env.mk "Seg" true true [0, 1, 2]
        (fun k _ => if k = 1 then MakeResult.fail 7 else (MakeResult.ok : MakeResult Nat)))
        none false false []).trace =
        [Event.startTransaction, Event.callMakeTuples 0, Event.commitTransaction,
          Event.startTransaction, Event.callMakeTuples 1, Event.cancelTransaction] ∧
      Event.callMakeTuples 2 ∉ (populate (Env.mk "Seg" true true [0, 1, 2]
        (fun k _ => if k = 1 then MakeResult.fail 7 else (MakeResult.ok : MakeResult Nat)))
        none false false []).trace) :=
  ⟨rfl, rfl, by decide,
    claim_C3 (Env.mk "Seg" true true [0, 1, 2]
        (fun k _ => if k = 1 then MakeResult.fail 7 else MakeResult.ok))
      none [] 0 1 2 7 rfl rfl (by decide) rfl rfl⟩

/-- Claim C1: in suppressing mode populate always returns normally with
an error list, and every key of the work list computed at the start is,
at return, either in the target relation or counted exactly once among
the (key, error) pairs of the returned list — no key is lost. -/
theorem claim_C1 {κ ε : Type} [DecidableEq κ] (env : Env κ ε) (restr : Option (κ → Bool))
    (tgt0 : List κ) (h1 : env.isRelation = true) (h2 : env.validPopulateRelation = true) :
    ∃ errs, (populate env restr true false tgt0).res = PopResult.done (some errs) ∧
      ∀ k ∈ workList env.populateRelation restr tgt0,
        k ∈ (populate env restr true false tgt0).target ∨
          errs.countP (fun p => decide (p.1 = k)) = 1 := by
  obtain ⟨errsNew, hres, hkeys, hacct⟩ :=
    processKeys_suppress env.makeTuples env.className
      (workList env.populateRelation restr tgt0) tgt0 []
      (workList_nodup env.populateRelation restr tgt0)
  refine ⟨errsNew, ?_, ?_⟩
  · simp only [populate_run, h1, h2]
    simpa using hres
  · intro k hk
    simp only [populate_run, h1, h2]
    exact hacct k hk

/-- Claim C1 witness at a concrete input. -/
theorem claim_C1_witness :
    (Env.mk "Seg" true true [0, 1, 2]
      (fun k _ => if k = 1 then MakeResult.fail 7 else (MakeResult.ok : MakeResult Nat))
      ).isRelation = true ∧
    (Env.mk "Seg" true true [0, 1, 2]
      (fun k _ => if k = 1 then MakeResult.fail 7 else (MakeResult.ok : MakeResult Nat))
      ).validPopulateRelation = true ∧
    (∃ errs, (populate (Env.mk "Seg" true true [0, 1, 2]
        (fun k _ => if k = 1 then MakeResult.fail 7 else (MakeResult.ok : MakeResult Nat)))
        none true false []).res = PopResult.done (some errs) ∧
      ∀ k ∈ workList [0, 1, 2] none ([] : List Nat),
        k ∈ (populate (Env.mk "Seg" true true [0, 1, 2]
          (fun k _ => if k = 1 then MakeResult.fail 7 else (MakeResult.ok : MakeResult Nat)))
          none true false []).target ∨
          errs.countP (fun p => decide (p.1 = k)) = 1) :=
  ⟨rfl, rfl,
    claim_C1 (Env.mk "Seg" true true [0, 1, 2]
        (fun k _ => if k = 1 then MakeResult.fail 7 else MakeResult.ok))
      none [] rfl rfl⟩

/-- Claim C7 (amended): the value populate returns is the error list and
nothing more: on a normal return it is None when not suppressing and the
accumulated (key, error) records — all of whose keys come from the work
list — when suppressing; no processed or skipped counts are part of the
return value. -/
theorem claim_C7 {κ ε : Type} [DecidableEq κ] (env : Env κ ε) (restr : Option (κ → Bool))
    (sup : Bool) (tgt0 : List κ)
    (h1 : env.isRelation = true) (h2 : env.validPopulateRelation = true) :
    (sup = false → (populate env restr sup false tgt0).res = PopResult.done none ∨
      ∃ e, (populate env restr sup false tgt0).res = PopResult.raised e) ∧
    (sup = true → ∃ errs,
      (populate env restr sup false tgt0).res = PopResult.done (some errs) ∧
      ∀ p ∈ errs, p.1 ∈ workList env.populateRelation restr tgt0) := by
  constructor
  · rintro rfl
    simp only [populate_run, h1, h2]
    exact processKeys_noSuppress env.makeTuples env.className
      (workList env.populateRelation restr tgt0) tgt0 []
  · rintro rfl
    simp only [populate_run, h1, h2]
    obtain ⟨errsNew, hres, hkeys, -⟩ :=
      processKeys_suppress env.makeTuples env.className
        (workList env.populateRelation restr tgt0) tgt0 []
        (workList_nodup env.populateRelation restr tgt0)
    exact ⟨errsNew, by simpa using hres, hkeys⟩

/-- Claim C7 witness at a concrete input. -/
theorem claim_C7_witness :
    (Env.mk "Seg" true true [0, 1]
      (fun _ _ => (MakeResult.ok : MakeResult Nat))).isRelation = true ∧
    (Env.mk "Seg" true true [0, 1]
      (fun _ _ => (MakeResult.ok : MakeResult Nat))).validPopulateRelation = true ∧
    ((true = false → (populate (Env.mk "Seg" true true [0, 1]
        (fun _ _ => (MakeResult.ok : MakeResult Nat))) none true false []).res =
        PopResult.done none ∨
      ∃ e, (populate (Env.mk "Seg" true true [0, 1]
        (fun _ _ => (MakeResult.ok : MakeResult Nat))) none true false []).res =
        PopResult.raised e) ∧
    (true = true → ∃ errs, (populate (Env.mk "Seg" true true [0, 1]
        (fun _ _ => (MakeResult.ok : MakeResult Nat))) none true false []).res =
        PopResult.done (some errs) ∧
      ∀ p ∈ errs, p.1 ∈ workList [0, 1] none ([] : List Nat))) :=
  ⟨rfl, rfl,
    claim_C7 (Env.mk "Seg" true true [0, 1] (fun _ _ => MakeResult.ok)) none true [] rfl rfl⟩

/-- Claim C7 counterexample to the claim as stated: the report does not
contain the number of keys processed (nor skipped): two completed runs
that process different numbers of keys return identical values, so the
count cannot be read off the return value. -/
theorem claim_C7_counterexample :
    (populate (Env.mk "Seg" true true [0]
        (fun _ _ => (MakeResult.ok : MakeResult Nat))) none true false []).res =
      (populate (Env.mk "Seg" true true [0, 1]
        (fun _ _ => (MakeResult.ok : MakeResult Nat))) none true false []).res ∧
    (populate (Env.mk "Seg" true true [0]
        (fun _ _ => (MakeResult.ok : MakeResult Nat))) none true false []).trace.countP
      (fun ev => match ev with | Event.callMakeTuples _ => true | _ => false) = 1 ∧
    (populate (Env.mk "Seg" true true [0, 1]
        (fun _ _ => (MakeResult.ok : MakeResult Nat))) none true false []).trace.countP
      (fun ev => match ev with | Event.callMakeTuples _ => true | _ => false) = 2 := by
  refine ⟨?_, ?_, ?_⟩ <;> rfl

/-- Claim C9 (amended): when a populate call returns normally with no
errors (an empty error list in suppressing mode, or None otherwise), a
second call against the resulting target with the same populate relation
and restriction computes an empty work list, runs nothing and invokes the
callback for no key.  (Without the no-errors proviso the claim fails: a
failed key stays out of the target and re-enters the next work list.) -/
theorem claim_C9 {κ ε : Type} [DecidableEq κ] (env : Env κ ε) (restr : Option (κ → Bool))
    (sup1 sup2 : Bool) (tgt0 : List κ)
    (h1 : env.isRelation = true) (h2 : env.validPopulateRelation = true)
    (hclean : (populate env restr sup1 false tgt0).res = PopResult.done (some []) ∨
      (populate env restr sup1 false tgt0).res = PopResult.done none) :
    workList env.populateRelation restr (populate env restr sup1 false tgt0).target = [] ∧
    (populate env restr sup2 false (populate env restr sup1 false tgt0).target).trace = [] ∧
    ∀ k, Event.callMakeTuples k ∉
      (populate env restr sup2 false (populate env restr sup1 false tgt0).target).trace := by
  simp only [populate_run, h1, h2] at hclean ⊢
  have hnil : workList env.populateRelation restr
      (processKeys env.makeTuples env.className sup1
        (workList env.populateRelation restr tgt0) tgt0 []).2.1 = [] := by
    rw [List.eq_nil_iff_forall_not_mem]
    intro k hkmem
    obtain ⟨hpop, hres, hnt⟩ := (workList_mem _ _ _ _).mp hkmem
    apply hnt
    by_cases h0 : k ∈ tgt0
    · exact processKeys_target_mono env.makeTuples env.className sup1
        (workList env.populateRelation restr tgt0) tgt0 [] h0
    · have hkw : k ∈ workList env.populateRelation restr tgt0 :=
        (workList_mem _ _ _ _).mpr ⟨hpop, hres, h0⟩
      exact processKeys_clean_mem env.makeTuples env.className sup1
        (workList env.populateRelation restr tgt0) tgt0 [] hclean k hkw
  rw [hnil]
  refine ⟨rfl, rfl, ?_⟩
  intro k
  simp [processKeys]

/-- Claim C9 witness at a concrete input. -/
theorem claim_C9_witness :
    (Env.mk "Seg" true true [0, 1]
      (fun _ _ => (MakeResult.ok : MakeResult Nat))).isRelation = true ∧
    ((populate (Env.mk "Seg" true true [0, 1]
        (fun _ _ => (MakeResult.ok : MakeResult Nat))) none true false []).res =
      PopResult.done (some []) ∨
      (populate (Env.mk "Seg" true true [0, 1]
        (fun _ _ => (MakeResult.ok : MakeResult Nat))) none true false []).res =
      PopResult.done none) ∧
    (workList [0, 1] none (populate (Env.mk "Seg" true true [0, 1]
        (fun _ _ => (MakeResult.ok : MakeResult Nat))) none true false []).target = [] ∧
      (populate (Env.mk "Seg" true true [0, 1] (fun _ _ => (MakeResult.ok : MakeResult Nat)))
        none false false (populate (Env.mk "Seg" true true [0, 1]
          (fun _ _ => (MakeResult.ok : MakeResult Nat))) none true false []).target).trace = [] ∧
      ∀ k, Event.callMakeTuples k ∉
        (populate (Env.mk "Seg" true true [0, 1] (fun _ _ => (MakeResult.ok : MakeResult Nat)))
          none false false (populate (Env.mk "Seg" true true [0, 1]
            (fun _ _ => (MakeResult.ok : MakeResult Nat))) none true false []).target).trace) :=
  ⟨rfl, Or.inl (by decide),
    claim_C9 (Env.mk "Seg" true true [0, 1] (fun _ _ => MakeResult.ok)) none true false []
      rfl rfl (Or.inl (by decide))⟩

/-- Claim C9 counterexample to the claim as stated: with a callback that
fails on its only key, the first (suppressing) call completes with the
key recorded as an error and not inserted, the eligible relation is
unchanged, and the second call computes work list [0], not [], and calls
the callback again for key 0. -/
theorem claim_C9_counterexample :
    (populate (Env.mk "Seg" true true [0]
        (fun _ _ => (MakeResult.fail 7 : MakeResult Nat))) none true false []).res =
      PopResult.done (some [(0, PopError.user 7)]) ∧
    workList [0] none (populate (Env.mk "Seg" true true [0]
        (fun _ _ => (MakeResult.fail 7 : MakeResult Nat))) none true false []).target = [0] ∧
    Event.callMakeTuples 0 ∈
      (populate (Env.mk "Seg" true true [0] (fun _ _ => (MakeResult.fail 7 : MakeResult Nat)))
        none true false (populate (Env.mk "Seg" true true [0]
          (fun _ _ => (MakeResult.fail 7 : MakeResult Nat))) none true false []).target).trace := by
  refine ⟨?_, ?_, ?_⟩ <;> decide

/-- Claim C6: two populate processes racing on the same key, each holding
the key in its work-list snapshot, interleaved under any nonempty
schedule of serialized attempts with a computation that succeeds: exactly
one committed computation happens — the callback runs once, the key ends
up in the shared target exactly once — because the loser's re-check
inside its transaction sees the key and skips. -/
theorem claim_C6 {κ ε : Type} [DecidableEq κ] (k : κ) (sched : List Bool) (hs : sched ≠ []) :
    (runSched (fun _ _ => (MakeResult.ok : MakeResult ε)) k sched raceStart).target = [k] ∧
    (runSched (fun _ _ => (MakeResult.ok : MakeResult ε)) k sched raceStart).trace.count
      (Event.callMakeTuples k) = 1 ∧
    workList [k] none ([] : List κ) = [k] := by
  rcases sched with _ | ⟨w, rest⟩
  · exact absurd rfl hs
  · rw [runSched]
    have hst : (stepState (fun _ _ => (MakeResult.ok : MakeResult ε)) k raceStart w).target
          = [k] ∧
        (stepState (fun _ _ => (MakeResult.ok : MakeResult ε)) k raceStart w).trace =
          [Event.startTransaction, Event.callMakeTuples k, Event.commitTransaction] := by
      cases w <;> exact ⟨rfl, rfl⟩
    obtain ⟨ht, htr⟩ := hst
    have hmem : k ∈ (stepState (fun _ _ => (MakeResult.ok : MakeResult ε)) k raceStart w).target := by
      rw [ht]
      simp
    obtain ⟨hA, hB⟩ := runSched_stable (fun _ _ => (MakeResult.ok : MakeResult ε)) k rest
      (stepState (fun _ _ => (MakeResult.ok : MakeResult ε)) k raceStart w) hmem
    refine ⟨hA.trans ht, ?_, workList_singleton k [] (by simp)⟩
    rw [hB, htr]
    simp

/-- Claim C6 witness at a concrete input. -/
theorem claim_C6_witness :
    ([true, false] : List Bool) ≠ [] ∧
    ((runSched (fun _ _ => (MakeResult.ok : MakeResult Nat)) (3 : Nat)
        [true, false] raceStart).target = [3] ∧
      (runSched (fun _ _ => (MakeResult.ok : MakeResult Nat)) (3 : Nat)
        [true, false] raceStart).trace.count (Event.callMakeTuples 3) = 1 ∧
      workList [3] none ([] : List Nat) = [3]) :=
  ⟨by decide, claim_C6 3 [true, false] (by decide)⟩

end AutoPop
